import Mathlib

/-!
Verification of the chat/session core of the `ai_port` frontend
(`src/frontend/src/App.tsx`).

The development shallowly embeds the React component's state and handlers:

* `AppState` mirrors the `useState` hooks of `App`;
* `localStorage` is mirrored by the `store` field, written by the
  `useEffect` persist hook (`localStorage.setItem("chats", JSON.stringify(chats))`)
  every time `chats` changes;
* `JSON.stringify` / `JSON.parse` are modelled by `stringifyJson` /
  `parseJsonTop` over an inductive `Json` type (numbers are modelled as
  naturals, which covers every number the persisted shape contains —
  thread ids from `Date.now()`);
* the streaming fetch of `handleSendMessage` is modelled by passing the
  decoded chunk list explicitly (`none` models a non-ok response or a
  missing body), and the successive values of the live `messages` state
  are returned as a trace.
-/

namespace AiPort

/-- `{ text: string; isUser: boolean }` from `App.tsx`. -/
structure Message where
  text : String
  isUser : Bool
deriving DecidableEq, Repr, Inhabited

/-- `interface ChatType` from `App.tsx`. -/
structure ChatType where
  id : Nat
  name : String
  date : String
  messages : List Message
deriving DecidableEq, Repr, Inhabited

/-- JSON values, as produced/consumed by `JSON.stringify` / `JSON.parse`.
Numbers are modelled as naturals: the persisted chat shape contains only
nonnegative integers (`Date.now()` ids). -/
inductive Json where
  | null : Json
  | bool : Bool → Json
  | num : Nat → Json
  | str : String → Json
  | arr : List Json → Json
  | obj : List (String × Json) → Json
deriving Repr, Inhabited

/-! ### JSON.stringify model -/

/-- Decimal digits of `n`, most significant first, accumulated onto `acc`. -/
def natDigitsAux (n : Nat) (acc : List Char) : List Char :=
  if h : n < 10 then Nat.digitChar n :: acc
  else natDigitsAux (n / 10) (Nat.digitChar (n % 10) :: acc)
termination_by n
decreasing_by
  exact Nat.div_lt_self (by omega) (by omega)

/-- Decimal representation of a natural number. -/
def natDigits (n : Nat) : List Char := natDigitsAux n []

/-- How `JSON.stringify` escapes a single character inside a string
literal: `"` and `\` get a backslash, the common control characters get
their short escapes, the remaining control characters (< 0x20) get a
`\u00XY` escape, everything else is emitted verbatim. -/
def escapeChar (c : Char) : List Char :=
  if c = '"' then ['\\', '"']
  else if c = '\\' then ['\\', '\\']
  else if c = '\n' then ['\\', 'n']
  else if c = '\t' then ['\\', 't']
  else if c = '\r' then ['\\', 'r']
  else if c = '\x08' then ['\\', 'b']
  else if c = '\x0c' then ['\\', 'f']
  else if c.toNat < 32 then
    ['\\', 'u', '0', '0', Nat.digitChar (c.toNat / 16), Nat.digitChar (c.toNat % 16)]
  else [c]

/-- Escape every character of a string body. -/
def escapeString : List Char → List Char
  | [] => []
  | c :: cs => escapeChar c ++ escapeString cs

/-- A JSON string literal: quote, escaped body, quote. -/
def strLit (s : String) : List Char :=
  '"' :: (escapeString s.data ++ ['"'])

mutual

/-- `JSON.stringify` (no spacing, insertion-order keys), as a char list. -/
def stringifyJson : Json → List Char
  | .null => "null".data
  | .bool true => "true".data
  | .bool false => "false".data
  | .num n => natDigits n
  | .str s => strLit s
  | .arr xs => '[' :: (stringifyElems xs ++ [']'])
  | .obj fs => '\x7b' :: (stringifyFields fs ++ ['\x7d'])

/-- Comma-separated array elements. -/
def stringifyElems : List Json → List Char
  | [] => []
  | [x] => stringifyJson x
  | x :: y :: xs => stringifyJson x ++ ',' :: stringifyElems (y :: xs)

/-- Comma-separated `"key":value` object fields. -/
def stringifyFields : List (String × Json) → List Char
  | [] => []
  | [(k, v)] => strLit k ++ ':' :: stringifyJson v
  | (k, v) :: f :: fs => strLit k ++ ':' :: stringifyJson v ++ ',' :: stringifyFields (f :: fs)

end

/-- The JSON value `JSON.stringify` sees for a `Message`. -/
def encodeMessage (m : Message) : Json :=
  .obj [("text", .str m.text), ("isUser", .bool m.isUser)]

/-- The JSON value `JSON.stringify` sees for a `ChatType`. -/
def encodeChat (c : ChatType) : Json :=
  .obj [("id", .num c.id), ("name", .str c.name), ("date", .str c.date),
        ("messages", .arr (c.messages.map encodeMessage))]

/-- The JSON value `JSON.stringify` sees for the whole chat collection. -/
def encodeChats (T : List ChatType) : Json :=
  .arr (T.map encodeChat)

/-- `JSON.stringify(chats)`: the string written to `localStorage` under
the key `"chats"` by the persist effect (`App.tsx` lines 33–35). -/
def saveAll (T : List ChatType) : List Char :=
  stringifyJson (encodeChats T)

/-! ### JSON.parse model

A failing parse (`none`) models `JSON.parse` throwing. -/

/-- JSON insignificant whitespace. -/
def isWs (c : Char) : Bool :=
  c = ' ' || c = '\n' || c = '\t' || c = '\r'

/-- Drop leading whitespace. -/
def skipWs : List Char → List Char
  | [] => []
  | c :: cs => if isWs c then skipWs cs else c :: cs

/-- Value of a hex digit. -/
def hexVal (c : Char) : Option Nat :=
  if '0' ≤ c ∧ c ≤ '9' then some (c.toNat - 48)
  else if 'a' ≤ c ∧ c ≤ 'f' then some (c.toNat - 87)
  else if 'A' ≤ c ∧ c ≤ 'F' then some (c.toNat - 55)
  else none

/-- The character denoted by a short escape `\c`. -/
def unescapeChar (c : Char) : Option Char :=
  if c = '"' then some '"'
  else if c = '\\' then some '\\'
  else if c = '/' then some '/'
  else if c = 'n' then some '\n'
  else if c = 't' then some '\t'
  else if c = 'r' then some '\r'
  else if c = 'b' then some '\x08'
  else if c = 'f' then some '\x0c'
  else none

/-- Parse the body of a JSON string literal (the opening quote already
consumed), returning the decoded characters and the input after the
closing quote. Raw control characters are rejected, as in JSON. -/
def parseStringBody : List Char → Option (List Char × List Char)
  | [] => none
  | c :: rest =>
    if c = '"' then some ([], rest)
    else if c = '\\' then
      match rest with
      | [] => none
      | e :: rest1 =>
        if e = 'u' then
          match rest1 with
          | h1 :: h2 :: h3 :: h4 :: rest2 =>
            match hexVal h1, hexVal h2, hexVal h3, hexVal h4 with
            | some a, some b, some c2, some d =>
              match parseStringBody rest2 with
              | some (s, r) => some (Char.ofNat (((a * 16 + b) * 16 + c2) * 16 + d) :: s, r)
              | none => none
            | _, _, _, _ => none
          | _ => none
        else
          match unescapeChar e with
          | some c1 =>
            match parseStringBody rest1 with
            | some (s, r) => some (c1 :: s, r)
            | none => none
          | none => none
    else if c.toNat < 32 then none
    else
      match parseStringBody rest with
      | some (s, r) => some (c :: s, r)
      | none => none

/-- Split off a maximal run of decimal digits. -/
def spanDigits : List Char → List Char × List Char
  | [] => ([], [])
  | c :: cs =>
    if c.isDigit then
      match spanDigits cs with
      | (ds, r) => (c :: ds, r)
    else ([], c :: cs)

/-- Value of a digit run (most significant first). -/
def digitsToNat (ds : List Char) : Nat :=
  ds.foldl (fun a c => a * 10 + (c.toNat - 48)) 0

mutual

/-- Parse one JSON value (fuel-indexed; any fuel larger than the length
of the consumed text suffices). Numbers are restricted to the naturals
appearing in the persisted shape. -/
def parseValue : Nat → List Char → Option (Json × List Char)
  | 0, _ => none
  | fuel + 1, input =>
    match skipWs input with
    | [] => none
    | c :: rest =>
      if c.isDigit then
        match spanDigits (c :: rest) with
        | (ds, rest1) => some (.num (digitsToNat ds), rest1)
      else
        match c :: rest with
        | 'n' :: 'u' :: 'l' :: 'l' :: rest1 => some (.null, rest1)
        | 't' :: 'r' :: 'u' :: 'e' :: rest1 => some (.bool true, rest1)
        | 'f' :: 'a' :: 'l' :: 's' :: 'e' :: rest1 => some (.bool false, rest1)
        | '"' :: rest1 =>
          (match parseStringBody rest1 with
           | some (s, rest2) => some (.str (String.mk s), rest2)
           | none => none)
        | '[' :: rest1 =>
          (match skipWs rest1 with
           | ']' :: rest2 => some (.arr [], rest2)
           | rest2 =>
             match parseElems fuel rest2 with
             | some (xs, rest3) => some (.arr xs, rest3)
             | none => none)
        | '\x7b' :: rest1 =>
          (match skipWs rest1 with
           | '\x7d' :: rest2 => some (.obj [], rest2)
           | rest2 =>
             match parseFields fuel rest2 with
             | some (fs, rest3) => some (.obj fs, rest3)
             | none => none)
        | _ => none

/-- Parse the elements of a nonempty array, through the closing `]`. -/
def parseElems : Nat → List Char → Option (List Json × List Char)
  | 0, _ => none
  | fuel + 1, input =>
    match parseValue fuel input with
    | some (j, rest) =>
      (match skipWs rest with
       | ',' :: rest1 =>
         match parseElems fuel rest1 with
         | some (xs, rest2) => some (j :: xs, rest2)
         | none => none
       | ']' :: rest1 => some ([j], rest1)
       | _ => none)
    | none => none

/-- Parse the fields of a nonempty object, through the closing brace. -/
def parseFields : Nat → List Char → Option (List (String × Json) × List Char)
  | 0, _ => none
  | fuel + 1, input =>
    match skipWs input with
    | '"' :: rest =>
      (match parseStringBody rest with
       | some (k, rest1) =>
         (match skipWs rest1 with
          | ':' :: rest2 =>
            (match parseValue fuel rest2 with
             | some (v, rest3) =>
               (match skipWs rest3 with
                | ',' :: rest4 =>
                  (match parseFields fuel rest4 with
                   | some (fs, rest5) => some ((String.mk k, v) :: fs, rest5)
                   | none => none)
                | '\x7d' :: rest4 => some ([(String.mk k, v)], rest4)
                | _ => none)
             | none => none)
          | _ => none)
       | none => none)
    | _ => none

end

/-- `JSON.parse`: parse a complete JSON document (`none` = throw). -/
def parseJsonTop (input : List Char) : Option Json :=
  match parseValue (input.length + 1) input with
  | some (j, rest) => if skipWs rest = [] then some j else none
  | none => none

/-- `JSON.parse(localStorage.getItem("chats") || "[]")` (`App.tsx`
lines 17–19): a missing key (`none`) or empty string falls back to
`"[]"`; the stored text is parsed with no error handling, so `none`
here models the initializer throwing (the load crashing). -/
def loadAllRaw (stored : Option (List Char)) : Option Json :=
  match stored with
  | none => parseJsonTop "[]".data
  | some [] => parseJsonTop "[]".data
  | some s => parseJsonTop s

/-! ### Reading a JSON value back as the typed chat collection -/

/-- Read a `Message` from its JSON shape. -/
def decodeMessage : Json → Option Message
  | .obj [("text", .str t), ("isUser", .bool b)] => some ⟨t, b⟩
  | _ => none

/-- Read a message list from JSON array elements. -/
def decodeMessages : List Json → Option (List Message)
  | [] => some []
  | j :: js =>
    match decodeMessage j, decodeMessages js with
    | some m, some ms => some (m :: ms)
    | _, _ => none

/-- Read a `ChatType` from its JSON shape. -/
def decodeChat : Json → Option ChatType
  | .obj [("id", .num i), ("name", .str n), ("date", .str d), ("messages", .arr ms)] =>
    match decodeMessages ms with
    | some msgs => some ⟨i, n, d, msgs⟩
    | none => none
  | _ => none

/-- Read a chat list from JSON array elements. -/
def decodeChatList : List Json → Option (List ChatType)
  | [] => some []
  | j :: js =>
    match decodeChat j, decodeChatList js with
    | some c, some cs => some (c :: cs)
    | _, _ => none

/-- Read the whole chat collection from a JSON value. -/
def decodeChats : Json → Option (List ChatType)
  | .arr js => decodeChatList js
  | _ => none

/-! ### The `App` component state and handlers -/

/-- The `useState` hooks of `App`, plus `store`: the value of
`localStorage.getItem("chats")`, kept in sync by the persist effect
(`App.tsx` lines 33–35). -/
structure AppState where
  chats : List ChatType
  selectedChat : Option Nat
  messages : List Message
  isSidebarOpen : Bool
  models : List String
  selectedLLM : String
  isModalOpen : Bool
  isToastVisible : Bool
  toastMessage : String
  chatToDelete : Option Nat
  store : List Char
deriving DecidableEq, Repr

/-- `setChats` followed by the `useEffect` persist hook: every change of
`chats` rewrites `localStorage` with `JSON.stringify(chats)`. -/
def setChatsPersist (s : AppState) (newChats : List ChatType) : AppState :=
  { s with chats := newChats, store := saveAll newChats }

/-- `prevChats.map(chat => chat.id === cid ? { ...chat, messages } : chat)` —
the update shape used by `handleSendMessage` and `updateMessage`. -/
def updateChatMessages (chats : List ChatType) (cid : Nat) (msgs : List Message) :
    List ChatType :=
  chats.map (fun chat => if chat.id == cid then { chat with messages := msgs } else chat)

/-- The `fetchModels` startup effect (`App.tsx` lines 37–54): `resp` is
the decoded `data.models` of a successful response, `none` a non-ok
status or network error (caught and logged, no state change). -/
def fetchModels (s : AppState) (resp : Option (List String)) : AppState :=
  match resp with
  | none => s
  | some ms =>
    let s1 := { s with models := ms }
    if ms.length > 0 then { s1 with selectedLLM := ms.headD "" } else s1

/-- Whether the main view renders the "No LLM models available" state
(`App.tsx` line 244: `models.length > 0` ternary, negative branch). -/
def noModelsView (s : AppState) : Bool :=
  !(s.models.length > 0)

/-- `handleSelectChat` (`App.tsx` lines 56–62). -/
def handleSelectChat (s : AppState) (chatId : Nat) : AppState :=
  match s.chats.find? (fun c => c.id == chatId) with
  | some chat => { s with selectedChat := some chatId, messages := chat.messages }
  | none => s

/-- `handleAddChat` (`App.tsx` lines 64–74); `now` is `Date.now()` and
`dateStr` is `new Date().toLocaleDateString()`. -/
def handleAddChat (s : AppState) (now : Nat) (dateStr : String) : AppState :=
  let newChat : ChatType :=
    ⟨now, "Chat " ++ toString (s.chats.length + 1), dateStr, []⟩
  { setChatsPersist s (s.chats ++ [newChat]) with
      selectedChat := some newChat.id, messages := [] }

/-- `handleRenameChat` (`App.tsx` lines 76–84). -/
def handleRenameChat (s : AppState) (chatId : Nat) (newName : String) : AppState :=
  { setChatsPersist s
      (s.chats.map (fun chat => if chat.id == chatId then { chat with name := newName } else chat))
    with toastMessage := "Chat renamed successfully!", isToastVisible := true }

/-- `handleDeleteChat` (`App.tsx` lines 86–89): phase one of deletion,
opens the confirmation modal and records the pending id. -/
def handleDeleteChat (s : AppState) (chatId : Nat) : AppState :=
  { s with isModalOpen := true, chatToDelete := some chatId }

/-- `confirmDeleteChat` (`App.tsx` lines 91–101): phase two, on confirm. -/
def confirmDeleteChat (s : AppState) : AppState :=
  match s.chatToDelete with
  | none => s
  | some cid =>
    { setChatsPersist s (s.chats.filter (fun chat => !(chat.id == cid))) with
        selectedChat := none, messages := [], chatToDelete := none,
        isModalOpen := false, toastMessage := "Chat deleted successfully!",
        isToastVisible := true }

/-- `closeModal` (`App.tsx` lines 103–106): declining the confirmation. -/
def closeModal (s : AppState) : AppState :=
  { s with isModalOpen := false, chatToDelete := none }

/-- The per-chunk loop of `handleSendMessage` (`App.tsx` lines 159–173):
starting from the live view `cur` and accumulator `acc`, each decoded
chunk is appended to the accumulator and the message at `idx` is replaced
by the whole accumulated text. Returns the successive live views and the
final accumulated text. -/
def streamSteps (cur : List Message) (idx : Nat) (acc : String) :
    List String → List (List Message) × String
  | [] => ([], acc)
  | chunk :: rest =>
    let acc1 := acc ++ chunk
    let cur1 := cur.set idx ⟨acc1, false⟩
    let next := streamSteps cur1 idx acc1 rest
    (cur1 :: next.1, next.2)

/-- Result of a `handleSendMessage` call: the final state, whether the
HTTP request was issued, and the successive values the live `messages`
state took from the placeholder append on (placeholder view first, then
one view per received chunk). -/
structure SendOutcome where
  state : AppState
  issued : Bool
  liveTrace : List (List Message)
deriving DecidableEq, Repr

/-- `handleSendMessage` (`App.tsx` lines 108–192). `updatedMessages` is
the optional second argument (passed by `updateMessage`); `response`
models the fetch: `none` a non-ok status or missing body, `some chunks`
the decoded chunk sequence of the streamed body. -/
def handleSendMessage (s : AppState) (message : String)
    (updatedMessages : Option (List Message)) (response : Option (List String)) :
    SendOutcome :=
  match s.selectedChat with
  | none => ⟨s, false, []⟩
  | some cid =>
    if s.selectedLLM = "" then ⟨s, false, []⟩
    else
      let updatedChatMessages :=
        match updatedMessages with
        | none => s.messages ++ [⟨message, true⟩]
        | some ms => ms
      let s1 :=
        match updatedMessages with
        | none =>
          setChatsPersist { s with messages := updatedChatMessages }
            (updateChatMessages s.chats cid updatedChatMessages)
        | some _ => s
      let llmResponseIndex := updatedChatMessages.length
      let s2 := { s1 with messages := updatedChatMessages ++ [⟨"", false⟩] }
      match response with
      | none => ⟨s2, true, [s2.messages]⟩
      | some chunks =>
        let steps := streamSteps s2.messages llmResponseIndex "" chunks
        let s3 := { s2 with messages := steps.1.getLastD s2.messages }
        let s4 := setChatsPersist s3
          (updateChatMessages s3.chats cid (updatedChatMessages ++ [⟨steps.2, false⟩]))
        ⟨s4, true, s2.messages :: steps.1⟩

/-- `messages.map((msg, i) => i === index ? { ...msg, text: newText } : msg)`
(`App.tsx` lines 196–198). -/
def replaceTextAt : List Message → Nat → String → List Message
  | [], _, _ => []
  | m :: ms, 0, t => { m with text := t } :: ms
  | m :: ms, i + 1, t => m :: replaceTextAt ms i t

/-- Result of an `updateMessage` call: the state after the truncation
mutations but before the triggered send, the send's outcome, and the
`handleSendMessage` invocations made (message text and history argument). -/
structure EditOutcome where
  preSend : AppState
  result : SendOutcome
  sendCalls : List (String × List Message)
deriving DecidableEq, Repr

/-- `updateMessage` (`App.tsx` lines 194–218). -/
def updateMessage (s : AppState) (index : Nat) (newText : String)
    (response : Option (List String)) : EditOutcome :=
  match s.selectedChat with
  | none => ⟨s, ⟨s, false, []⟩, []⟩
  | some cid =>
    let updatedMessages := replaceTextAt s.messages index newText
    let truncatedMessages := updatedMessages.take (index + 1)
    let s1 := setChatsPersist { s with messages := truncatedMessages }
      (updateChatMessages s.chats cid truncatedMessages)
    let lastUserMessage := (truncatedMessages.getD index default).text
    ⟨s1, handleSendMessage s1 lastUserMessage (some truncatedMessages) response,
     [(lastUserMessage, truncatedMessages)]⟩

/-! ### Lemmas: whitespace, digits and the number round trip -/

theorem skipWs_not_ws {c : Char} (h : isWs c = false) (l : List Char) :
    skipWs (c :: l) = c :: l := by
  simp [skipWs, h]

theorem digit_not_ws {c : Char} (h : c.isDigit = true) : isWs c = false := by
  have h1 : c ≠ ' ' := by rintro rfl; exact absurd h (by decide)
  have h2 : c ≠ '\n' := by rintro rfl; exact absurd h (by decide)
  have h3 : c ≠ '\t' := by rintro rfl; exact absurd h (by decide)
  have h4 : c ≠ '\r' := by rintro rfl; exact absurd h (by decide)
  simp [isWs, h1, h2, h3, h4]

theorem digitChar_isDigit {k : Nat} (h : k < 10) : (Nat.digitChar k).isDigit = true := by
  interval_cases k <;> decide

theorem digitChar_sub_48 {k : Nat} (h : k < 10) : (Nat.digitChar k).toNat - 48 = k := by
  interval_cases k <;> decide

theorem natDigitsAux_append (n : Nat) : ∀ acc, natDigitsAux n acc = natDigits n ++ acc := by
  induction n using Nat.strong_induction_on with
  | _ n ih =>
    intro acc
    by_cases h : n < 10
    · conv_lhs => rw [natDigitsAux]
      conv_rhs => rw [natDigits, natDigitsAux]
      simp [h]
    · have hlt : n / 10 < n := Nat.div_lt_self (by omega) (by omega)
      conv_lhs => rw [natDigitsAux]
      conv_rhs => rw [natDigits, natDigitsAux]
      simp only [h, dite_false]
      rw [ih (n / 10) hlt, ih (n / 10) hlt]
      simp

theorem natDigits_step {n : Nat} (h : ¬ n < 10) :
    natDigits n = natDigits (n / 10) ++ [Nat.digitChar (n % 10)] := by
  rw [natDigits, natDigitsAux]
  simp only [h, dite_false]
  exact natDigitsAux_append (n / 10) [Nat.digitChar (n % 10)]

theorem natDigits_base {n : Nat} (h : n < 10) : natDigits n = [Nat.digitChar n] := by
  rw [natDigits, natDigitsAux]
  simp [h]

theorem natDigits_digits (n : Nat) : ∀ c ∈ natDigits n, c.isDigit = true := by
  induction n using Nat.strong_induction_on with
  | _ n ih =>
    by_cases h : n < 10
    · rw [natDigits_base h]
      intro c hc
      rw [List.mem_singleton] at hc
      subst hc
      exact digitChar_isDigit h
    · rw [natDigits_step h]
      intro c hc
      rcases List.mem_append.mp hc with h1 | h1
      · exact ih (n / 10) (Nat.div_lt_self (by omega) (by omega)) c h1
      · rw [List.mem_singleton] at h1
        subst h1
        exact digitChar_isDigit (Nat.mod_lt n (by omega))

theorem natDigits_ne_nil (n : Nat) : natDigits n ≠ [] := by
  by_cases h : n < 10
  · rw [natDigits_base h]; simp
  · rw [natDigits_step h]; simp

theorem digitsToNat_natDigits (n : Nat) : digitsToNat (natDigits n) = n := by
  induction n using Nat.strong_induction_on with
  | _ n ih =>
    by_cases h : n < 10
    · rw [natDigits_base h]
      show 0 * 10 + ((Nat.digitChar n).toNat - 48) = n
      rw [digitChar_sub_48 h]
      omega
    · rw [natDigits_step h]
      rw [digitsToNat, List.foldl_append]
      have := ih (n / 10) (Nat.div_lt_self (by omega) (by omega))
      rw [digitsToNat] at this
      rw [this]
      show n / 10 * 10 + ((Nat.digitChar (n % 10)).toNat - 48) = n
      rw [digitChar_sub_48 (Nat.mod_lt n (by omega))]
      omega

theorem spanDigits_append (ds rest : List Char) (hds : ∀ c ∈ ds, c.isDigit = true)
    (hrest : ∀ c, rest.head? = some c → c.isDigit = false) :
    spanDigits (ds ++ rest) = (ds, rest) := by
  induction ds with
  | nil =>
    cases rest with
    | nil => rfl
    | cons r rs => simp [spanDigits, hrest r rfl]
  | cons d ds ih =>
    have hd := hds d (by simp)
    have ih1 := ih (fun c hc => hds c (by simp [hc]))
    simp only [List.cons_append, spanDigits, hd, if_true, List.append_eq, ih1]

/-! ### Lemmas: string escaping round trip -/

theorem hexVal_digitChar {k : Nat} (h : k < 16) : hexVal (Nat.digitChar k) = some k := by
  interval_cases k <;> decide

theorem parseStringBody_escape (s rest : List Char) :
    parseStringBody (escapeString s ++ '"' :: rest) = some (s, rest) := by
  induction s with
  | nil =>
    rw [escapeString, List.nil_append, parseStringBody.eq_def]
    simp
  | cons c cs ih =>
    rw [escapeString, List.append_assoc]
    by_cases h1 : c = '"'
    · subst h1
      rw [show escapeChar '"' = ['\\', '"'] from rfl, List.cons_append, List.cons_append,
        List.nil_append, parseStringBody.eq_def]
      simp [unescapeChar, ih]
    · by_cases h2 : c = '\\'
      · subst h2
        rw [show escapeChar '\\' = ['\\', '\\'] from rfl, List.cons_append, List.cons_append,
          List.nil_append, parseStringBody.eq_def]
        simp [unescapeChar, ih]
      · by_cases h3 : c = '\n'
        · subst h3
          rw [show escapeChar '\n' = ['\\', 'n'] from rfl, List.cons_append, List.cons_append,
            List.nil_append, parseStringBody.eq_def]
          simp [unescapeChar, ih]
        · by_cases h4 : c = '\t'
          · subst h4
            rw [show escapeChar '\t' = ['\\', 't'] from rfl, List.cons_append, List.cons_append,
              List.nil_append, parseStringBody.eq_def]
            simp [unescapeChar, ih]
          · by_cases h5 : c = '\r'
            · subst h5
              rw [show escapeChar '\r' = ['\\', 'r'] from rfl, List.cons_append, List.cons_append,
                List.nil_append, parseStringBody.eq_def]
              simp [unescapeChar, ih]
            · by_cases h6 : c = '\x08'
              · subst h6
                rw [show escapeChar '\x08' = ['\\', 'b'] from rfl, List.cons_append,
                  List.cons_append, List.nil_append, parseStringBody.eq_def]
                simp [unescapeChar, ih]
              · by_cases h7 : c = '\x0c'
                · subst h7
                  rw [show escapeChar '\x0c' = ['\\', 'f'] from rfl, List.cons_append,
                    List.cons_append, List.nil_append, parseStringBody.eq_def]
                  simp [unescapeChar, ih]
                · by_cases h8 : c.toNat < 32
                  · have hd : c.toNat / 16 < 16 := by omega
                    have hm : c.toNat % 16 < 16 := by omega
                    have harith : c.toNat / 16 * 16 + c.toNat % 16 = c.toNat := by omega
                    have harith2 : 16 * (c.toNat / 16) + c.toNat % 16 = c.toNat := by omega
                    have he : escapeChar c = ['\\', 'u', '0', '0',
                        Nat.digitChar (c.toNat / 16), Nat.digitChar (c.toNat % 16)] := by
                      simp [escapeChar, h1, h2, h3, h4, h5, h6, h7, h8]
                    rw [he]
                    simp only [List.cons_append, List.nil_append]
                    rw [parseStringBody.eq_def]
                    simp [show hexVal '0' = some 0 from by decide, hexVal_digitChar hd,
                      hexVal_digitChar hm, ih, harith, harith2, Char.ofNat_toNat]
                  · have he : escapeChar c = [c] := by
                      simp [escapeChar, h1, h2, h3, h4, h5, h6, h7, h8]
                    rw [he, List.cons_append, List.nil_append, parseStringBody.eq_def]
                    simp [h1, h2, h8, ih]

/-! ### Lemmas: parsing the encoded leaves -/

theorem parseValue_str (s : String) (rest : List Char) (fuel : Nat) (hf : 1 ≤ fuel) :
    parseValue fuel (strLit s ++ rest) = some (.str s, rest) := by
  cases fuel with
  | zero => omega
  | succ f =>
    rw [strLit, List.cons_append, List.append_assoc, List.singleton_append,
      parseValue.eq_2, skipWs_not_ws (by decide)]
    simp [parseStringBody_escape s.data rest]

theorem parseValue_bool (b : Bool) (rest : List Char) (fuel : Nat) (hf : 1 ≤ fuel) :
    parseValue fuel (stringifyJson (.bool b) ++ rest) = some (.bool b, rest) := by
  cases fuel with
  | zero => omega
  | succ f =>
    cases b with
    | true =>
      rw [show stringifyJson (.bool true) = ['t', 'r', 'u', 'e'] from rfl]
      simp only [List.cons_append, List.nil_append]
      rw [parseValue.eq_2, skipWs_not_ws (by decide)]
      simp
    | false =>
      rw [show stringifyJson (.bool false) = ['f', 'a', 'l', 's', 'e'] from rfl]
      simp only [List.cons_append, List.nil_append]
      rw [parseValue.eq_2, skipWs_not_ws (by decide)]
      simp

theorem parseValue_num (n : Nat) (rest : List Char) (fuel : Nat) (hf : 1 ≤ fuel)
    (hrest : ∀ c, rest.head? = some c → c.isDigit = false) :
    parseValue fuel (natDigits n ++ rest) = some (.num n, rest) := by
  cases fuel with
  | zero => omega
  | succ f =>
    obtain ⟨d, ds, hnd⟩ : ∃ d ds, natDigits n = d :: ds := by
      cases h : natDigits n with
      | nil => exact absurd h (natDigits_ne_nil n)
      | cons d ds => exact ⟨d, ds, rfl⟩
    have hd : d.isDigit = true := natDigits_digits n d (by rw [hnd]; simp)
    have hspan := spanDigits_append (d :: ds) rest (by rw [← hnd]; exact natDigits_digits n) hrest
    rw [hnd, List.cons_append, parseValue.eq_2, skipWs_not_ws (digit_not_ws hd)]
    rw [List.cons_append] at hspan
    simp only [hd, if_true, hspan]
    rw [← hnd, digitsToNat_natDigits]

/-! ### Lemmas: parsing composite shapes -/

theorem parseFields_cons (g : Nat) (k : String) (vs more rest : List Char) (v : Json)
    (fs : List (String × Json))
    (hval : parseValue g (vs ++ ',' :: more) = some (v, ',' :: more))
    (hmore : parseFields g more = some (fs, rest)) :
    parseFields (g + 1) (strLit k ++ ':' :: (vs ++ ',' :: more)) = some ((k, v) :: fs, rest) := by
  rw [strLit, List.cons_append, List.append_assoc, List.singleton_append, parseFields.eq_2,
    skipWs_not_ws (by decide)]
  simp [parseStringBody_escape, skipWs, isWs, hval, hmore]

theorem parseFields_last (g : Nat) (k : String) (vs rest : List Char) (v : Json)
    (hval : parseValue g (vs ++ '\x7d' :: rest) = some (v, '\x7d' :: rest)) :
    parseFields (g + 1) (strLit k ++ ':' :: (vs ++ '\x7d' :: rest)) = some ([(k, v)], rest) := by
  rw [strLit, List.cons_append, List.append_assoc, List.singleton_append, parseFields.eq_2,
    skipWs_not_ws (by decide)]
  simp [parseStringBody_escape, skipWs, isWs, hval]

theorem parseElems_cons (g : Nat) (vs more rest : List Char) (v : Json) (xs : List Json)
    (hval : parseValue g (vs ++ ',' :: more) = some (v, ',' :: more))
    (hmore : parseElems g more = some (xs, rest)) :
    parseElems (g + 1) (vs ++ ',' :: more) = some (v :: xs, rest) := by
  rw [parseElems.eq_2]
  simp [skipWs, isWs, hval, hmore]

theorem parseElems_last (g : Nat) (vs rest : List Char) (v : Json)
    (hval : parseValue g (vs ++ ']' :: rest) = some (v, ']' :: rest)) :
    parseElems (g + 1) (vs ++ ']' :: rest) = some ([v], rest) := by
  rw [parseElems.eq_2]
  simp [skipWs, isWs, hval]

theorem parseValue_obj_step (f : Nat) (body r : List Char) (fs : List (String × Json))
    (hbody : ∃ t, body = '"' :: t)
    (hfields : parseFields f body = some (fs, r)) :
    parseValue (f + 1) ('\x7b' :: body) = some (.obj fs, r) := by
  obtain ⟨t, rfl⟩ := hbody
  rw [parseValue.eq_2, skipWs_not_ws (by decide)]
  simp [skipWs, isWs, hfields]

theorem parseValue_arr_step (f : Nat) (body r : List Char) (xs : List Json)
    (hbody : ∃ t, body = '\x7b' :: t)
    (helems : parseElems f body = some (xs, r)) :
    parseValue (f + 1) ('[' :: body) = some (.arr xs, r) := by
  obtain ⟨t, rfl⟩ := hbody
  rw [parseValue.eq_2, skipWs_not_ws (by decide)]
  simp [skipWs, isWs, helems]

theorem parseValue_arr_nil (f : Nat) (rest : List Char) :
    parseValue (f + 1) ('[' :: ']' :: rest) = some (.arr [], rest) := by
  rw [parseValue.eq_2, skipWs_not_ws (by decide)]
  simp [skipWs, isWs]

/-- The exact character shape of an encoded message. -/
theorem stringify_message_shape (m : Message) :
    stringifyJson (encodeMessage m) =
      '\x7b' :: ((strLit "text" ++ ':' :: (strLit m.text ++ ',' ::
        (strLit "isUser" ++ ':' :: stringifyJson (.bool m.isUser)))) ++ ['\x7d']) := by
  rw [encodeMessage, stringifyJson.eq_7, stringifyFields.eq_3, stringifyFields.eq_2]
  rw [show stringifyJson (Json.str m.text) = strLit m.text from by rw [stringifyJson.eq_5]]
  simp [List.append_assoc]

theorem parseValue_message (m : Message) (rest : List Char) (fuel : Nat) (hf : 4 ≤ fuel) :
    parseValue fuel (stringifyJson (encodeMessage m) ++ rest) = some (encodeMessage m, rest) := by
  obtain ⟨g, rfl⟩ : ∃ g, fuel = g + 4 := ⟨fuel - 4, by omega⟩
  rw [stringify_message_shape, List.cons_append, List.append_assoc, List.singleton_append]
  rw [show g + 4 = (g + 3) + 1 from rfl]
  have hbool : parseValue (g + 1) (stringifyJson (.bool m.isUser) ++ '\x7d' :: rest)
      = some (.bool m.isUser, '\x7d' :: rest) :=
    parseValue_bool m.isUser ('\x7d' :: rest) (g + 1) (by omega)
  have hmore : parseFields ((g + 1) + 1)
      (strLit "isUser" ++ ':' :: (stringifyJson (.bool m.isUser) ++ '\x7d' :: rest))
      = some ([("isUser", .bool m.isUser)], rest) :=
    parseFields_last (g + 1) "isUser" (stringifyJson (.bool m.isUser)) rest (.bool m.isUser) hbool
  have hstr : parseValue (g + 2) (strLit m.text ++ ',' ::
      (strLit "isUser" ++ ':' :: (stringifyJson (.bool m.isUser) ++ '\x7d' :: rest)))
      = some (.str m.text, ',' ::
        (strLit "isUser" ++ ':' :: (stringifyJson (.bool m.isUser) ++ '\x7d' :: rest))) :=
    parseValue_str m.text _ (g + 2) (by omega)
  have hfields := parseFields_cons (g + 2) "text"
    (strLit m.text)
    (strLit "isUser" ++ ':' :: (stringifyJson (.bool m.isUser) ++ '\x7d' :: rest))
    rest (.str m.text) [("isUser", .bool m.isUser)] hstr hmore
  refine (parseValue_obj_step (g + 3) _ rest _ ?hb ?hf2)
  · refine ⟨(escapeString "text".data ++ ['"'] ++ ':' :: (strLit m.text ++ ',' ::
      (strLit "isUser" ++ ':' :: stringifyJson (.bool m.isUser)))) ++ '\x7d' :: rest, ?_⟩
    rw [strLit]
    simp [List.append_assoc]
  · have : (g + 2) + 1 = g + 3 := rfl
    rw [← this]
    convert hfields using 2
    simp [List.append_assoc]

/-- An encoded message list (nonempty) starts with an opening brace. -/
theorem stringifyElems_messages_head (m : Message) (ms : List Message) :
    ∃ t, stringifyElems ((m :: ms).map encodeMessage) = '\x7b' :: t := by
  cases ms with
  | nil =>
    rw [List.map_cons, List.map_nil, stringifyElems.eq_2, stringify_message_shape]
    exact ⟨_, rfl⟩
  | cons m2 ms2 =>
    rw [List.map_cons, List.map_cons, stringifyElems.eq_3, stringify_message_shape,
      List.cons_append]
    exact ⟨_, rfl⟩

theorem parseElems_messages (ms : List Message) (rest : List Char) (fuel : Nat)
    (hms : ms ≠ []) (hf : ms.length + 4 ≤ fuel) :
    parseElems fuel (stringifyElems (ms.map encodeMessage) ++ ']' :: rest)
      = some (ms.map encodeMessage, rest) := by
  induction ms generalizing rest fuel with
  | nil => exact absurd rfl hms
  | cons m ms ih =>
    obtain ⟨g, rfl⟩ : ∃ g, fuel = g + 1 := ⟨fuel - 1, by omega⟩
    have hlen : (m :: ms).length = ms.length + 1 := by simp
    cases ms with
    | nil =>
      rw [List.map_cons, List.map_nil, stringifyElems.eq_2]
      exact parseElems_last g _ rest _ (parseValue_message m (']' :: rest) g (by omega))
    | cons m2 ms2 =>
      rw [List.map_cons, List.map_cons, stringifyElems.eq_3, List.append_assoc,
        List.cons_append, ← List.map_cons]
      refine parseElems_cons g _ _ rest _ _ ?hv ?hm
      · exact parseValue_message m _ g (by simp at hf ⊢; omega)
      · exact ih rest g (by simp) (by simp at hf ⊢; omega)

theorem parseValue_msgArr (ms : List Message) (rest : List Char) (fuel : Nat)
    (hf : ms.length + 5 ≤ fuel) :
    parseValue fuel (stringifyJson (.arr (ms.map encodeMessage)) ++ rest)
      = some (.arr (ms.map encodeMessage), rest) := by
  obtain ⟨g, rfl⟩ : ∃ g, fuel = g + 1 := ⟨fuel - 1, by omega⟩
  cases ms with
  | nil =>
    rw [List.map_nil, stringifyJson.eq_6, stringifyElems.eq_1, List.nil_append,
      List.cons_append, List.singleton_append]
    exact parseValue_arr_nil g rest
  | cons m ms =>
    rw [stringifyJson.eq_6, List.cons_append, List.append_assoc, List.singleton_append]
    obtain ⟨t, ht⟩ := stringifyElems_messages_head m ms
    refine parseValue_arr_step g _ rest _ ⟨t ++ ']' :: rest, by rw [ht, List.cons_append]⟩ ?he
    exact parseElems_messages (m :: ms) rest g (by simp) (by simp at hf ⊢; omega)

/-- The exact character shape of an encoded chat thread. -/
theorem stringify_chat_shape (c : ChatType) :
    stringifyJson (encodeChat c) =
      '\x7b' :: ((strLit "id" ++ ':' :: (natDigits c.id ++ ',' ::
        (strLit "name" ++ ':' :: (strLit c.name ++ ',' ::
          (strLit "date" ++ ':' :: (strLit c.date ++ ',' ::
            (strLit "messages" ++ ':' ::
              stringifyJson (.arr (c.messages.map encodeMessage))))))))) ++ ['\x7d']) := by
  rw [encodeChat, stringifyJson.eq_7, stringifyFields.eq_3, stringifyFields.eq_3,
    stringifyFields.eq_3, stringifyFields.eq_2]
  rw [show stringifyJson (Json.num c.id) = natDigits c.id from by rw [stringifyJson.eq_4],
    show stringifyJson (Json.str c.name) = strLit c.name from by rw [stringifyJson.eq_5],
    show stringifyJson (Json.str c.date) = strLit c.date from by rw [stringifyJson.eq_5]]
  simp [List.append_assoc]

theorem parseValue_chat (c : ChatType) (rest : List Char) (fuel : Nat)
    (hf : c.messages.length + 10 ≤ fuel) :
    parseValue fuel (stringifyJson (encodeChat c) ++ rest) = some (encodeChat c, rest) := by
  obtain ⟨g, rfl⟩ : ∃ g, fuel = g + (c.messages.length + 10) :=
    ⟨fuel - (c.messages.length + 10), by omega⟩
  have harr : parseValue (g + c.messages.length + 5)
      (stringifyJson (.arr (c.messages.map encodeMessage)) ++ '\x7d' :: rest)
      = some (.arr (c.messages.map encodeMessage), '\x7d' :: rest) :=
    parseValue_msgArr c.messages _ _ (by omega)
  have h4 : parseFields (g + c.messages.length + 6)
      (strLit "messages" ++ ':' ::
        (stringifyJson (.arr (c.messages.map encodeMessage)) ++ '\x7d' :: rest))
      = some ([("messages", .arr (c.messages.map encodeMessage))], rest) :=
    parseFields_last _ "messages" _ rest _ harr
  have hdate : parseValue (g + c.messages.length + 6)
      (strLit c.date ++ ',' :: (strLit "messages" ++ ':' ::
        (stringifyJson (.arr (c.messages.map encodeMessage)) ++ '\x7d' :: rest)))
      = some (.str c.date, ',' :: (strLit "messages" ++ ':' ::
        (stringifyJson (.arr (c.messages.map encodeMessage)) ++ '\x7d' :: rest))) :=
    parseValue_str c.date _ _ (by omega)
  have h3 : parseFields (g + c.messages.length + 7)
      (strLit "date" ++ ':' :: (strLit c.date ++ ',' :: (strLit "messages" ++ ':' ::
        (stringifyJson (.arr (c.messages.map encodeMessage)) ++ '\x7d' :: rest))))
      = some ([("date", .str c.date), ("messages", .arr (c.messages.map encodeMessage))],
          rest) :=
    parseFields_cons _ "date" _ _ rest _ _ hdate h4
  have hname : parseValue (g + c.messages.length + 7)
      (strLit c.name ++ ',' :: (strLit "date" ++ ':' :: (strLit c.date ++ ',' ::
        (strLit "messages" ++ ':' ::
          (stringifyJson (.arr (c.messages.map encodeMessage)) ++ '\x7d' :: rest)))))
      = some (.str c.name, ',' :: (strLit "date" ++ ':' :: (strLit c.date ++ ',' ::
        (strLit "messages" ++ ':' ::
          (stringifyJson (.arr (c.messages.map encodeMessage)) ++ '\x7d' :: rest))))) :=
    parseValue_str c.name _ _ (by omega)
  have h2 : parseFields (g + c.messages.length + 8)
      (strLit "name" ++ ':' :: (strLit c.name ++ ',' :: (strLit "date" ++ ':' ::
        (strLit c.date ++ ',' :: (strLit "messages" ++ ':' ::
          (stringifyJson (.arr (c.messages.map encodeMessage)) ++ '\x7d' :: rest))))))
      = some ([("name", .str c.name), ("date", .str c.date),
          ("messages", .arr (c.messages.map encodeMessage))], rest) :=
    parseFields_cons _ "name" _ _ rest _ _ hname h3
  have hid : parseValue (g + c.messages.length + 8)
      (natDigits c.id ++ ',' :: (strLit "name" ++ ':' :: (strLit c.name ++ ',' ::
        (strLit "date" ++ ':' :: (strLit c.date ++ ',' :: (strLit "messages" ++ ':' ::
          (stringifyJson (.arr (c.messages.map encodeMessage)) ++ '\x7d' :: rest)))))))
      = some (.num c.id, ',' :: (strLit "name" ++ ':' :: (strLit c.name ++ ',' ::
        (strLit "date" ++ ':' :: (strLit c.date ++ ',' :: (strLit "messages" ++ ':' ::
          (stringifyJson (.arr (c.messages.map encodeMessage)) ++ '\x7d' :: rest))))))) :=
    parseValue_num c.id _ _ (by omega) (by intro x hx; simp at hx; subst hx; decide)
  have hfields : parseFields (g + c.messages.length + 9)
      (strLit "id" ++ ':' :: (natDigits c.id ++ ',' :: (strLit "name" ++ ':' ::
        (strLit c.name ++ ',' :: (strLit "date" ++ ':' :: (strLit c.date ++ ',' ::
          (strLit "messages" ++ ':' ::
            (stringifyJson (.arr (c.messages.map encodeMessage)) ++ '\x7d' :: rest))))))))
      = some ([("id", .num c.id), ("name", .str c.name), ("date", .str c.date),
          ("messages", .arr (c.messages.map encodeMessage))], rest) :=
    parseFields_cons _ "id" _ _ rest _ _ hid h2
  rw [stringify_chat_shape, List.cons_append, List.append_assoc, List.singleton_append,
    encodeChat]
  rw [show g + (c.messages.length + 10) = (g + c.messages.length + 9) + 1 from by omega]
  refine parseValue_obj_step (g + c.messages.length + 9) _ rest _ ?hb ?hfs
  · refine ⟨(escapeString "id".data ++ ['"'] ++ ':' :: (natDigits c.id ++ ',' ::
      (strLit "name" ++ ':' :: (strLit c.name ++ ',' :: (strLit "date" ++ ':' ::
        (strLit c.date ++ ',' :: (strLit "messages" ++ ':' ::
          stringifyJson (.arr (c.messages.map encodeMessage))))))))) ++ '\x7d' :: rest, ?_⟩
    rw [strLit]
    simp [List.append_assoc]
  · convert hfields using 2
    simp [List.append_assoc]

/-- Fuel sufficient to parse an encoded chat collection. -/
def chatsFuel (T : List ChatType) : Nat :=
  T.foldr (fun c a => c.messages.length + 11 + a) 1

/-- An encoded chat list (nonempty) starts with an opening brace. -/
theorem stringifyElems_chats_head (c : ChatType) (T : List ChatType) :
    ∃ t, stringifyElems ((c :: T).map encodeChat) = '\x7b' :: t := by
  cases T with
  | nil =>
    rw [List.map_cons, List.map_nil, stringifyElems.eq_2, stringify_chat_shape]
    exact ⟨_, rfl⟩
  | cons c2 T2 =>
    rw [List.map_cons, List.map_cons, stringifyElems.eq_3, stringify_chat_shape,
      List.cons_append]
    exact ⟨_, rfl⟩

theorem parseElems_chats (T : List ChatType) (rest : List Char) (fuel : Nat)
    (hT : T ≠ []) (hf : chatsFuel T ≤ fuel) :
    parseElems fuel (stringifyElems (T.map encodeChat) ++ ']' :: rest)
      = some (T.map encodeChat, rest) := by
  induction T generalizing rest fuel with
  | nil => exact absurd rfl hT
  | cons c T ih =>
    obtain ⟨g, rfl⟩ : ∃ g, fuel = g + 1 := by
      refine ⟨fuel - 1, ?_⟩
      have : 1 ≤ chatsFuel (c :: T) := by
        simp [chatsFuel]
        omega
      omega
    cases T with
    | nil =>
      rw [List.map_cons, List.map_nil, stringifyElems.eq_2]
      refine parseElems_last g _ rest _ (parseValue_chat c (']' :: rest) g ?_)
      simp [chatsFuel] at hf
      omega
    | cons c2 T2 =>
      rw [List.map_cons, List.map_cons, stringifyElems.eq_3, List.append_assoc,
        List.cons_append, ← List.map_cons]
      refine parseElems_cons g _ _ rest _ _ ?hv ?hm
      · refine parseValue_chat c _ g ?_
        simp [chatsFuel] at hf ⊢
        omega
      · refine ih rest g (by simp) ?_
        have h1 : 1 ≤ chatsFuel (c2 :: T2) := by simp [chatsFuel]; omega
        simp [chatsFuel] at hf ⊢
        omega

theorem parseValue_chats (T : List ChatType) (rest : List Char) (fuel : Nat)
    (hf : chatsFuel T + 1 ≤ fuel) :
    parseValue fuel (saveAll T ++ rest) = some (encodeChats T, rest) := by
  obtain ⟨g, rfl⟩ : ∃ g, fuel = g + 1 := ⟨fuel - 1, by omega⟩
  cases T with
  | nil =>
    rw [saveAll, encodeChats, List.map_nil, stringifyJson.eq_6, stringifyElems.eq_1,
      List.nil_append, List.cons_append, List.singleton_append]
    exact parseValue_arr_nil g rest
  | cons c T =>
    rw [saveAll, encodeChats, stringifyJson.eq_6, List.cons_append, List.append_assoc,
      List.singleton_append]
    obtain ⟨t, ht⟩ := stringifyElems_chats_head c T
    refine parseValue_arr_step g _ rest _ ⟨t ++ ']' :: rest, by rw [ht, List.cons_append]⟩ ?he
    refine parseElems_chats (c :: T) rest g (by simp) ?_
    simp [chatsFuel] at hf ⊢
    omega

/-! ### Lemmas: the available fuel covers the persisted shape -/

theorem strLit_length_ge (s : String) : 2 ≤ (strLit s).length := by
  rw [strLit]
  simp

theorem natDigits_length_ge (n : Nat) : 1 ≤ (natDigits n).length := by
  have := natDigits_ne_nil n
  cases h : natDigits n with
  | nil => exact absurd h this
  | cons d ds => simp

theorem stringify_message_length (m : Message) :
    1 ≤ (stringifyJson (encodeMessage m)).length := by
  rw [stringify_message_shape]
  simp

theorem elems_msgs_length (ms : List Message) :
    ms.length ≤ (stringifyElems (ms.map encodeMessage)).length := by
  induction ms with
  | nil => simp [stringifyElems]
  | cons m ms ih =>
    cases ms with
    | nil =>
      rw [List.map_cons, List.map_nil, stringifyElems.eq_2]
      have := stringify_message_length m
      simp
      omega
    | cons m2 ms2 =>
      rw [List.map_cons, List.map_cons, stringifyElems.eq_3, ← List.map_cons]
      have h1 := stringify_message_length m
      simp only [List.length_append, List.length_cons]
      simp only [List.length_cons] at ih ⊢
      omega

theorem stringify_chat_length (c : ChatType) :
    c.messages.length + 12 ≤ (stringifyJson (encodeChat c)).length := by
  rw [stringify_chat_shape]
  have h1 := strLit_length_ge c.name
  have h2 := strLit_length_ge c.date
  have h3 := natDigits_length_ge c.id
  have h4 : (stringifyJson (.arr (c.messages.map encodeMessage))).length
      = (stringifyElems (c.messages.map encodeMessage)).length + 2 := by
    rw [stringifyJson.eq_6]
    simp
  have h5 := elems_msgs_length c.messages
  have h6 : (strLit "id").length = 4 := rfl
  have h7 : (strLit "name").length = 6 := rfl
  have h8 : (strLit "date").length = 6 := rfl
  have h9 : (strLit "messages").length = 10 := rfl
  simp only [List.length_cons, List.length_append, h4, h6, h7, h8, h9]
  omega

theorem chatsFuel_le_saveAll (T : List ChatType) :
    chatsFuel T ≤ (saveAll T).length := by
  induction T with
  | nil => decide
  | cons c T ih =>
    have hch := stringify_chat_length c
    cases T with
    | nil =>
      rw [saveAll, encodeChats, List.map_cons, List.map_nil, stringifyJson.eq_6,
        stringifyElems.eq_2]
      simp only [chatsFuel, List.foldr]
      simp
      omega
    | cons c2 T2 =>
      rw [saveAll, encodeChats, List.map_cons, List.map_cons, stringifyJson.eq_6,
        stringifyElems.eq_3, ← List.map_cons]
      rw [saveAll, encodeChats, stringifyJson.eq_6] at ih
      simp only [chatsFuel, List.foldr] at ih ⊢
      simp only [List.length_cons, List.length_append] at ih ⊢
      simp at ih ⊢
      omega

/-! ### The persistence round trip -/

/-- `JSON.parse(JSON.stringify(chats))` recovers the encoded collection. -/
theorem parseJsonTop_saveAll (T : List ChatType) :
    parseJsonTop (saveAll T) = some (encodeChats T) := by
  rw [parseJsonTop]
  have h := parseValue_chats T [] ((saveAll T).length + 1)
    (by have := chatsFuel_le_saveAll T; omega)
  rw [List.append_nil] at h
  rw [h]
  simp [skipWs]

theorem decodeMessage_encodeMessage (m : Message) :
    decodeMessage (encodeMessage m) = some m := by
  rw [encodeMessage, decodeMessage]

theorem decodeMessages_map (ms : List Message) :
    decodeMessages (ms.map encodeMessage) = some ms := by
  induction ms with
  | nil => rfl
  | cons m ms ih =>
    rw [List.map_cons, decodeMessages, decodeMessage_encodeMessage, ih]

theorem decodeChat_encodeChat (c : ChatType) : decodeChat (encodeChat c) = some c := by
  rw [encodeChat, decodeChat, decodeMessages_map]

theorem decodeChats_encodeChats (T : List ChatType) :
    decodeChats (encodeChats T) = some T := by
  rw [encodeChats, decodeChats]
  induction T with
  | nil => rfl
  | cons c T ih =>
    rw [List.map_cons, decodeChatList, decodeChat_encodeChat, ih]

/-! ### Lemmas: the thread-collection update and the stream loop -/

theorem find?_updateChatMessages (chats : List ChatType) (cid : Nat) (msgs : List Message) :
    ((updateChatMessages chats cid msgs).find? (fun c => c.id == cid))
      = (chats.find? (fun c => c.id == cid)).map (fun c => { c with messages := msgs }) := by
  induction chats with
  | nil => rfl
  | cons c cs ih =>
    by_cases h : (c.id == cid) = true
    · simp [updateChatMessages, List.find?, h]
    · simp only [updateChatMessages, List.map_cons] at ih ⊢
      rw [if_neg h, List.find?, List.find?]
      simp only [Bool.not_eq_true] at h
      rw [h]
      exact ih

theorem streamSteps_final (chunks : List String) : ∀ (cur : List Message) (idx : Nat)
    (acc : String), (streamSteps cur idx acc chunks).2
      = chunks.foldl (fun a c => a ++ c) acc := by
  induction chunks with
  | nil => intro cur idx acc; rfl
  | cons ch chs ih =>
    intro cur idx acc
    rw [streamSteps]
    exact ih _ idx (acc ++ ch)

theorem scanl_head_tail (f : String → String → String) (b : String) (l : List String) :
    b :: (List.scanl f b l).tail = List.scanl f b l := by
  cases l <;> simp [List.scanl]

theorem streamSteps_texts (chunks : List String) : ∀ (cur : List Message) (idx : Nat)
    (acc : String), idx < cur.length →
    ((streamSteps cur idx acc chunks).1.map (fun ms => (ms.getD idx default).text))
      = (List.scanl (fun a c => a ++ c) acc chunks).tail := by
  induction chunks with
  | nil => intro cur idx acc h; simp [streamSteps, List.scanl]
  | cons ch chs ih =>
    intro cur idx acc h
    have hlen : idx < (cur.set idx ⟨acc ++ ch, false⟩).length := by simpa using h
    have hhead : (((cur.set idx ⟨acc ++ ch, false⟩).getD idx default)).text = acc ++ ch := by
      rw [List.getD_eq_getElem?_getD, List.getElem?_set_self h]
      rfl
    rw [streamSteps]
    simp only [List.map_cons, hhead, List.scanl_cons, List.singleton_append, List.tail_cons]
    rw [ih _ idx (acc ++ ch) hlen, scanl_head_tail]

theorem streamSteps_length (chunks : List String) : ∀ (cur : List Message) (idx : Nat)
    (acc : String) (ms : List Message), ms ∈ (streamSteps cur idx acc chunks).1 →
    ms.length = cur.length := by
  induction chunks with
  | nil => intro cur idx acc ms h; simp [streamSteps] at h
  | cons ch chs ih =>
    intro cur idx acc ms h
    rw [streamSteps] at h
    simp only [List.mem_cons] at h
    rcases h with h | h
    · subst h; simp
    · have := ih _ idx (acc ++ ch) ms h
      simpa using this

theorem streamSteps_chain (chunks : List String) : ∀ (cur : List Message) (idx : Nat)
    (acc : String) (k : Nat),
    k + 1 < (cur :: (streamSteps cur idx acc chunks).1).length →
    ∃ m, (cur :: (streamSteps cur idx acc chunks).1).getD (k + 1) []
      = ((cur :: (streamSteps cur idx acc chunks).1).getD k []).set idx m := by
  induction chunks with
  | nil =>
    intro cur idx acc k h
    simp [streamSteps] at h
  | cons ch chs ih =>
    intro cur idx acc k h
    rw [streamSteps] at h ⊢
    cases k with
    | zero => exact ⟨⟨acc ++ ch, false⟩, by simp⟩
    | succ k2 =>
      have h2 := ih (cur.set idx ⟨acc ++ ch, false⟩) idx (acc ++ ch) k2 (by
        simp only [List.length_cons] at h ⊢
        omega)
      simpa using h2

theorem replaceTextAt_length (ms : List Message) : ∀ (i : Nat) (t : String),
    (replaceTextAt ms i t).length = ms.length := by
  induction ms with
  | nil => intro i t; rfl
  | cons m ms ih =>
    intro i t
    cases i with
    | zero => rfl
    | succ j => simp [replaceTextAt, ih]

theorem replaceTextAt_getD_self (ms : List Message) : ∀ (i : Nat) (t : String),
    i < ms.length →
    (replaceTextAt ms i t).getD i default = { ms.getD i default with text := t } := by
  induction ms with
  | nil => intro i t h; simp at h
  | cons m ms ih =>
    intro i t h
    cases i with
    | zero => rfl
    | succ j =>
      simp only [replaceTextAt, List.getD_cons_succ]
      exact ih j t (by simpa using h)

theorem replaceTextAt_getD_ne (ms : List Message) : ∀ (i j : Nat) (t : String), j ≠ i →
    (replaceTextAt ms i t).getD j default = ms.getD j default := by
  induction ms with
  | nil => intro i j t h; rfl
  | cons m ms ih =>
    intro i j t h
    cases i with
    | zero =>
      cases j with
      | zero => exact absurd rfl h
      | succ j2 => rfl
    | succ i2 =>
      cases j with
      | zero => rfl
      | succ j2 =>
        simp only [replaceTextAt, List.getD_cons_succ]
        exact ih i2 j2 t (by omega)

/-- Loading the exact text written by `saveAll` recovers the encoded collection. -/
theorem loadAllRaw_saveAll (T : List ChatType) :
    loadAllRaw (some (saveAll T)) = some (encodeChats T) := by
  obtain ⟨t, ht⟩ : ∃ t, saveAll T = '[' :: t := by
    rw [saveAll, encodeChats, stringifyJson.eq_6]
    exact ⟨_, rfl⟩
  rw [ht]
  show parseJsonTop ('[' :: t) = some (encodeChats T)
  rw [← ht, parseJsonTop_saveAll]

/-- Loading with nothing persisted yields the empty JSON array. -/
theorem loadAllRaw_none : loadAllRaw none = some (Json.arr []) := by
  show parseJsonTop ("[]".data) = some (Json.arr [])
  have hsa : saveAll ([] : List ChatType) = "[]".data := by
    rw [saveAll, encodeChats, List.map_nil, stringifyJson.eq_6, stringifyElems.eq_1]
    rfl
  rw [← hsa, parseJsonTop_saveAll]
  rfl

/-- Loading the malformed text `nope` throws (`JSON.parse` fails). -/
theorem loadAllRaw_nope : loadAllRaw (some ['n', 'o', 'p', 'e']) = none := by
  show parseJsonTop ['n', 'o', 'p', 'e'] = none
  rw [parseJsonTop, show (['n', 'o', 'p', 'e'] : List Char).length + 1 = 4 + 1 from rfl,
    parseValue.eq_2, skipWs_not_ws (by decide)]
  simp

/-! ### Sample states used by witnesses and counterexamples -/

/-- A thread with no messages. -/
def sampleChat : ChatType := ⟨1, "Chat 1", "1/1/2025", []⟩

/-- A state with one empty selected thread and one selected model. -/
def sampleState : AppState :=
  ⟨[sampleChat], some 1, [], true, ["llama"], "llama", false, false, "", none,
   saveAll [sampleChat]⟩

/-- `sampleState` with no thread selected. -/
def sampleStateNoSel : AppState := { sampleState with selectedChat := none }

/-- A state with two threads where thread 1 is selected. -/
def twoChatsState : AppState :=
  ⟨[⟨1, "a", "d", []⟩, ⟨2, "b", "d", []⟩], some 1, [], true, ["m"], "m", false, false, "",
   none, saveAll [⟨1, "a", "d", []⟩, ⟨2, "b", "d", []⟩]⟩

/-- A state whose selected thread holds a user/assistant/user exchange. -/
def editState : AppState :=
  ⟨[⟨1, "c", "d", [⟨"a", true⟩, ⟨"b", false⟩, ⟨"q", true⟩]⟩], some 1,
   [⟨"a", true⟩, ⟨"b", false⟩, ⟨"q", true⟩], true, ["m"], "m", false, false, "", none,
   saveAll [⟨1, "c", "d", [⟨"a", true⟩, ⟨"b", false⟩, ⟨"q", true⟩]⟩]⟩

/-! ### C6 — sendMessage is guarded -/

/-- C6: whenever no thread is selected or no model is selected, `handleSendMessage`
is a silent no-op — the state (thread collection, live view, persisted store)
is unchanged and no request is issued. -/
theorem sendMessage_guard_noop (s : AppState) (message : String)
    (updatedMessages : Option (List Message)) (response : Option (List String))
    (h : s.selectedChat = none ∨ s.selectedLLM = "") :
    handleSendMessage s message updatedMessages response = ⟨s, false, []⟩ := by
  rcases h with h | h
  · rw [handleSendMessage.eq_def, h]
  · rw [handleSendMessage.eq_def]
    cases hc : s.selectedChat with
    | none => rfl
    | some cid => simp [h]

/-- C6 witness: the guard fires on a concrete state with no selected thread. -/
theorem sendMessage_guard_noop_witness :
    (sampleStateNoSel.selectedChat = none ∨ sampleStateNoSel.selectedLLM = "") ∧
    handleSendMessage sampleStateNoSel "hi" none (some ["x"]) = ⟨sampleStateNoSel, false, []⟩ :=
  ⟨Or.inl rfl, sendMessage_guard_noop sampleStateNoSel "hi" none (some ["x"]) (Or.inl rfl)⟩

/-! ### C7 — selectThread -/

/-- C7: selecting an id present in the collection makes it active and loads its
message sequence; selecting an absent id leaves the state (hence the selected id
and the message view) unchanged. -/
theorem selectThread_spec (s : AppState) (chatId : Nat) :
    (∀ c, s.chats.find? (fun c => c.id == chatId) = some c →
      handleSelectChat s chatId
        = { s with selectedChat := some chatId, messages := c.messages }) ∧
    (s.chats.find? (fun c => c.id == chatId) = none → handleSelectChat s chatId = s) := by
  constructor
  · intro c hc
    rw [handleSelectChat, hc]
  · intro hc
    rw [handleSelectChat, hc]

/-- C7 witness: selecting the existing id 1 and the absent id 99. -/
theorem selectThread_spec_witness :
    handleSelectChat sampleState 1
      = { sampleState with selectedChat := some 1, messages := sampleChat.messages } ∧
    handleSelectChat sampleState 99 = sampleState :=
  ⟨(selectThread_spec sampleState 1).1 sampleChat rfl,
   (selectThread_spec sampleState 99).2 rfl⟩

/-! ### C8 — model list fetch -/

/-- C8: a failed model fetch leaves the model set empty with no selection and
the UI in the no-models state; a successful nonempty response is kept in order
with its first entry selected; a successful empty response selects nothing. -/
theorem fetchModels_spec (s : AppState) (hm : s.models = []) (hl : s.selectedLLM = "") :
    (fetchModels s none).models = [] ∧
    (fetchModels s none).selectedLLM = "" ∧
    noModelsView (fetchModels s none) = true ∧
    (∀ ms : List String, ms ≠ [] →
      (fetchModels s (some ms)).models = ms ∧
      (fetchModels s (some ms)).selectedLLM = ms.headD "") ∧
    (fetchModels s (some [])).models = [] ∧
    (fetchModels s (some [])).selectedLLM = "" ∧
    noModelsView (fetchModels s (some [])) = true := by
  refine ⟨hm, hl, ?_, ?_, ?_, ?_, ?_⟩
  · simp [fetchModels, noModelsView, hm]
  · intro ms hne
    have hpos : ms.length > 0 := List.length_pos.mpr hne
    constructor
    · simp [fetchModels, hpos]
    · simp [fetchModels, hpos]
  · simp [fetchModels]
  · simp [fetchModels, hl]
  · simp [fetchModels, noModelsView]

/-- C8 witness: from the startup state, failure, `["a", "b"]` and `[]`. -/
theorem fetchModels_spec_witness :
    ({ sampleState with models := [], selectedLLM := "" }.models = []) ∧
    (fetchModels { sampleState with models := [], selectedLLM := "" } (some ["a", "b"])).models
        = ["a", "b"] ∧
    (fetchModels { sampleState with models := [], selectedLLM := "" }
        (some ["a", "b"])).selectedLLM = "a" ∧
    (fetchModels { sampleState with models := [], selectedLLM := "" } none).models = [] ∧
    noModelsView (fetchModels { sampleState with models := [], selectedLLM := "" }
        (some [])) = true := by
  have h := fetchModels_spec { sampleState with models := [], selectedLLM := "" } rfl rfl
  exact ⟨rfl, (h.2.2.2.1 ["a", "b"] (by simp)).1, (h.2.2.2.1 ["a", "b"] (by simp)).2,
    h.1, h.2.2.2.2.2.2⟩

/-! ### C4 — two-phase deletion (corrected: confirming always clears selection) -/

/-- C4 counterexample: in `twoChatsState` thread 1 is selected; requesting and
confirming deletion of thread 2 (present, not selected) still resets the
selection to `none`, contradicting "leaving the selection unchanged otherwise". -/
theorem deleteThread_selection_cex :
    twoChatsState.selectedChat = some 1 ∧
    twoChatsState.chats.find? (fun c => c.id == 2) ≠ none ∧
    (confirmDeleteChat (handleDeleteChat twoChatsState 2)).selectedChat = none ∧
    (confirmDeleteChat (handleDeleteChat twoChatsState 2)).selectedChat ≠
      twoChatsState.selectedChat := by
  refine ⟨rfl, by decide, rfl, by decide⟩

/-- C4 amended: requesting deletion leaves the collection, selection, view and
store unchanged and only records the pending id (and opens the modal);
declining restores the exact original state; confirming removes exactly the
threads with the requested id and always clears both the selection and the
message view, whether or not the deleted thread was the selected one. -/
theorem deleteThread_two_phase (s : AppState) (chatId : Nat)
    (hmodal : s.isModalOpen = false) (hpend : s.chatToDelete = none) :
    (handleDeleteChat s chatId).chats = s.chats ∧
    (handleDeleteChat s chatId).selectedChat = s.selectedChat ∧
    (handleDeleteChat s chatId).messages = s.messages ∧
    (handleDeleteChat s chatId).store = s.store ∧
    (handleDeleteChat s chatId).chatToDelete = some chatId ∧
    closeModal (handleDeleteChat s chatId) = s ∧
    (confirmDeleteChat (handleDeleteChat s chatId)).chats
        = s.chats.filter (fun c => !(c.id == chatId)) ∧
    (confirmDeleteChat (handleDeleteChat s chatId)).selectedChat = none ∧
    (confirmDeleteChat (handleDeleteChat s chatId)).messages = [] ∧
    (confirmDeleteChat (handleDeleteChat s chatId)).store
        = saveAll (s.chats.filter (fun c => !(c.id == chatId))) ∧
    (∀ c ∈ s.chats, c.id ≠ chatId →
      c ∈ (confirmDeleteChat (handleDeleteChat s chatId)).chats) ∧
    (∀ c ∈ (confirmDeleteChat (handleDeleteChat s chatId)).chats, c.id ≠ chatId) := by
  refine ⟨rfl, rfl, rfl, rfl, rfl, ?_, rfl, rfl, rfl, rfl, ?_, ?_⟩
  · rw [closeModal, handleDeleteChat]
    cases s
    simp_all
  · intro c hc hne
    simp [confirmDeleteChat, handleDeleteChat, setChatsPersist, List.mem_filter, hc, hne]
  · intro c hc
    simp [confirmDeleteChat, handleDeleteChat, setChatsPersist, List.mem_filter] at hc
    exact hc.2

/-- C4 amended witness: the two-phase protocol on `twoChatsState`, id 2. -/
theorem deleteThread_two_phase_witness :
    twoChatsState.isModalOpen = false ∧
    closeModal (handleDeleteChat twoChatsState 2) = twoChatsState ∧
    (confirmDeleteChat (handleDeleteChat twoChatsState 2)).chats
      = twoChatsState.chats.filter (fun c => !(c.id == 2)) :=
  ⟨rfl, (deleteThread_two_phase twoChatsState 2 rfl rfl).2.2.2.2.2.1,
   (deleteThread_two_phase twoChatsState 2 rfl rfl).2.2.2.2.2.2.1⟩

/-! ### C5 — loading persisted threads (corrected: malformed data throws) -/

/-- C5 counterexample: loading the malformed persisted text `nope` makes
`JSON.parse` throw (modelled `none`) — the load crashes instead of returning
the empty collection, which is what an absent key yields. -/
theorem loadAll_malformed_cex :
    loadAllRaw (some ['n', 'o', 'p', 'e']) = none ∧
    loadAllRaw none = some (Json.arr []) :=
  ⟨loadAllRaw_nope, loadAllRaw_none⟩

/-- C5 amended: when nothing is persisted `loadAll` yields the empty collection;
well-formed persisted content written by `saveAll` is parsed back exactly; but
malformed persisted text makes the load throw (`none`) instead of returning
the empty collection. -/
theorem loadAll_amended :
    loadAllRaw none = some (Json.arr []) ∧
    decodeChats (Json.arr []) = some [] ∧
    (∀ T : List ChatType, loadAllRaw (some (saveAll T)) = some (encodeChats T) ∧
      decodeChats (encodeChats T) = some T) ∧
    loadAllRaw (some ['n', 'o', 'p', 'e']) = none :=
  ⟨loadAllRaw_none, rfl,
   fun T => ⟨loadAllRaw_saveAll T, decodeChats_encodeChats T⟩,
   loadAllRaw_nope⟩

/-! ### C9 — persistence round trip -/

/-- C9: `loadAll(saveAll(T)) == T` for every thread collection, and after
`createThread`, the two deletion phases, a decline, and `renameThread`, the
persisted store is exactly `saveAll` of the in-memory collection. -/
theorem persistence_roundtrip :
    (∀ T : List ChatType, loadAllRaw (some (saveAll T)) = some (encodeChats T) ∧
      decodeChats (encodeChats T) = some T) ∧
    (∀ (s : AppState) (now : Nat) (dateStr : String),
      (handleAddChat s now dateStr).store = saveAll (handleAddChat s now dateStr).chats) ∧
    (∀ (s : AppState) (chatId : Nat) (newName : String),
      (handleRenameChat s chatId newName).store
        = saveAll (handleRenameChat s chatId newName).chats) ∧
    (∀ s : AppState, s.store = saveAll s.chats →
      (confirmDeleteChat s).store = saveAll (confirmDeleteChat s).chats) ∧
    (∀ (s : AppState) (chatId : Nat), s.store = saveAll s.chats →
      (handleDeleteChat s chatId).store = saveAll (handleDeleteChat s chatId).chats ∧
      (closeModal s).store = saveAll (closeModal s).chats) := by
  refine ⟨fun T => ⟨loadAllRaw_saveAll T, decodeChats_encodeChats T⟩, fun s now d => rfl,
    fun s cid nn => rfl, ?_, fun s cid h => ⟨h, h⟩⟩
  intro s h
  rw [confirmDeleteChat.eq_def]
  cases hc : s.chatToDelete with
  | none => exact h
  | some cid => rfl

/-- C9 witness: the round trip and the store invariant on concrete states. -/
theorem persistence_roundtrip_witness :
    loadAllRaw (some (saveAll [sampleChat])) = some (encodeChats [sampleChat]) ∧
    (handleAddChat sampleState 7 "d").store = saveAll (handleAddChat sampleState 7 "d").chats ∧
    (sampleState.store = saveAll sampleState.chats) ∧
    (confirmDeleteChat sampleState).store = saveAll (confirmDeleteChat sampleState).chats :=
  ⟨(persistence_roundtrip.1 [sampleChat]).1,
   persistence_roundtrip.2.1 sampleState 7 "d",
   rfl,
   persistence_roundtrip.2.2.2.1 sampleState rfl⟩

/-! ### C3 — send failure before a body -/

/-- C3: when the send request fails before a body is available, the user's own
message is already persisted in the selected thread's stored sequence, that
stored sequence gains no assistant entry, the live view ends with the empty
assistant placeholder, and every other piece of state is unchanged. -/
theorem send_failure_spec (s : AppState) (cid : Nat) (c0 : ChatType) (message : String)
    (hsel : s.selectedChat = some cid) (hllm : s.selectedLLM ≠ "")
    (hc : s.chats.find? (fun c => c.id == cid) = some c0)
    (hsync : c0.messages = s.messages) :
    (handleSendMessage s message none none).issued = true ∧
    (handleSendMessage s message none none).state.chats.find? (fun c => c.id == cid)
      = some { c0 with messages := s.messages ++ [⟨message, true⟩] } ∧
    ((handleSendMessage s message none none).state.chats.find?
        (fun c => c.id == cid)).map ChatType.messages
      = some (c0.messages ++ [⟨message, true⟩]) ∧
    (handleSendMessage s message none none).state.store
      = saveAll (handleSendMessage s message none none).state.chats ∧
    (handleSendMessage s message none none).state.messages
      = s.messages ++ [⟨message, true⟩, ⟨"", false⟩] ∧
    (handleSendMessage s message none none).state.selectedChat = s.selectedChat ∧
    (handleSendMessage s message none none).state.models = s.models ∧
    (handleSendMessage s message none none).state.selectedLLM = s.selectedLLM ∧
    (handleSendMessage s message none none).state.isModalOpen = s.isModalOpen ∧
    (handleSendMessage s message none none).state.isToastVisible = s.isToastVisible ∧
    (handleSendMessage s message none none).state.toastMessage = s.toastMessage ∧
    (handleSendMessage s message none none).state.chatToDelete = s.chatToDelete ∧
    (handleSendMessage s message none none).state.isSidebarOpen = s.isSidebarOpen := by
  have hE : handleSendMessage s message none none =
      ⟨{ setChatsPersist { s with messages := s.messages ++ [⟨message, true⟩] }
          (updateChatMessages s.chats cid (s.messages ++ [⟨message, true⟩]))
          with messages := (s.messages ++ [⟨message, true⟩]) ++ [⟨"", false⟩] }, true,
        [(s.messages ++ [⟨message, true⟩]) ++ [⟨"", false⟩]]⟩ := by
    rw [handleSendMessage.eq_def, hsel]
    simp only [if_neg hllm]
  rw [hE]
  refine ⟨rfl, ?_, ?_, rfl, ?_, rfl, rfl, rfl, rfl, rfl, rfl, rfl, rfl⟩
  · show (updateChatMessages s.chats cid (s.messages ++ [⟨message, true⟩])).find?
        (fun c => c.id == cid) = _
    rw [find?_updateChatMessages, hc]
    rfl
  · show ((updateChatMessages s.chats cid (s.messages ++ [⟨message, true⟩])).find?
        (fun c => c.id == cid)).map ChatType.messages = _
    rw [find?_updateChatMessages, hc]
    simp [hsync]
  · show (s.messages ++ [⟨message, true⟩]) ++ [⟨"", false⟩] = _
    simp

/-- C3 witness: a failing send from `sampleState`. -/
theorem send_failure_spec_witness :
    (handleSendMessage sampleState "Hi" none none).issued = true ∧
    (handleSendMessage sampleState "Hi" none none).state.chats.find? (fun c => c.id == 1)
      = some { sampleChat with messages := [⟨"Hi", true⟩] } ∧
    (handleSendMessage sampleState "Hi" none none).state.messages
      = [⟨"Hi", true⟩, ⟨"", false⟩] := by
  have h := send_failure_spec sampleState 1 sampleChat "Hi" rfl (by decide) rfl rfl
  exact ⟨h.1, h.2.1, h.2.2.2.2.1⟩

/-! ### C1 — cumulative streaming (corrected: the example concatenation has a
space, "Hello world") -/

/-- Characterization of a fresh, guarded send with a streamed body. -/
theorem handleSendMessage_fresh_chunks (s : AppState) (cid : Nat) (message : String)
    (chunks : List String)
    (hsel : s.selectedChat = some cid) (hllm : s.selectedLLM ≠ "") :
    handleSendMessage s message none (some chunks) =
      ⟨setChatsPersist
        { setChatsPersist { s with messages := s.messages ++ [Message.mk message true] }
            (updateChatMessages s.chats cid (s.messages ++ [Message.mk message true]))
          with messages :=
            ((streamSteps ((s.messages ++ [Message.mk message true]) ++ [Message.mk "" false])
              (s.messages ++ [Message.mk message true]).length "" chunks).1.getLastD
              ((s.messages ++ [Message.mk message true]) ++ [Message.mk "" false])) }
        (updateChatMessages
          (updateChatMessages s.chats cid (s.messages ++ [Message.mk message true])) cid
          ((s.messages ++ [Message.mk message true]) ++
            [Message.mk (streamSteps
              ((s.messages ++ [Message.mk message true]) ++ [Message.mk "" false])
              (s.messages ++ [Message.mk message true]).length "" chunks).2 false])),
       true,
       ((s.messages ++ [Message.mk message true]) ++ [Message.mk "" false]) ::
         (streamSteps ((s.messages ++ [Message.mk message true]) ++ [Message.mk "" false])
           (s.messages ++ [Message.mk message true]).length "" chunks).1⟩ := by
  rw [handleSendMessage.eq_def, hsel]
  simp only [if_neg hllm]
  rfl

/-- Second update of the same thread overwrites the first. -/
theorem find?_updateChatMessages_twice (chats : List ChatType) (cid : Nat)
    (m1 m2 : List Message) :
    ((updateChatMessages (updateChatMessages chats cid m1) cid m2).find?
        (fun c => c.id == cid))
      = (chats.find? (fun c => c.id == cid)).map (fun c => { c with messages := m2 }) := by
  rw [find?_updateChatMessages, find?_updateChatMessages]
  cases chats.find? (fun c => c.id == cid) <;> rfl

/-- C1 counterexample: for the spec's chunk sequence `["Hel", "lo w", "orld"]`
the cumulative concatenation is `"Hello world"` (the space of `"lo w"` is kept),
so the live assistant text never passes through `"Helloworld"` and the persisted
thread contains `"Helloworld"` zero times — the spec's stated final state
`"Helloworld"` is wrong, while `"Hello world"` appears exactly once, last. -/
theorem stream_cumulative_cex :
    ((handleSendMessage sampleState "Hi" none (some ["Hel", "lo w", "orld"])).liveTrace.map
        (fun ms => (ms.getD 1 default).text))
      = ["", "Hel", "Hello w", "Hello world"] ∧
    ((handleSendMessage sampleState "Hi" none (some ["Hel", "lo w", "orld"])).liveTrace.map
        (fun ms => (ms.getD 1 default).text))
      ≠ ["", "Hel", "Hello w", "Helloworld"] ∧
    (((handleSendMessage sampleState "Hi" none
        (some ["Hel", "lo w", "orld"])).state.chats.getD 0 default).messages.map
          Message.text).count "Helloworld" = 0 ∧
    (((handleSendMessage sampleState "Hi" none
        (some ["Hel", "lo w", "orld"])).state.chats.getD 0 default).messages.map
          Message.text).count "Hello world" = 1 ∧
    ((handleSendMessage sampleState "Hi" none
        (some ["Hel", "lo w", "orld"])).state.chats.getD 0 default).messages.getLast?
      = some (Message.mk "Hello world" false) := by
  refine ⟨rfl, by decide, rfl, rfl, rfl⟩

/-- C1 amended: each received chunk is appended to the running accumulator and
the live assistant message at the placeholder index is replaced by the entire
accumulated text; for every chunk sequence the live assistant text passes
through the cumulative concatenations (for `["Hel", "lo w", "orld"]`: `""`,
`"Hel"`, `"Hello w"`, `"Hello world"` — the concatenation keeps the space), and
after completion the persisted thread is the history plus the final
concatenated text appended exactly once as its last message. -/
theorem stream_cumulative (s : AppState) (cid : Nat) (c0 : ChatType) (message : String)
    (chunks : List String)
    (hsel : s.selectedChat = some cid) (hllm : s.selectedLLM ≠ "")
    (hc : s.chats.find? (fun c => c.id == cid) = some c0) :
    ((handleSendMessage s message none (some chunks)).liveTrace.map
        (fun ms => (ms.getD (s.messages.length + 1) default).text))
      = List.scanl (fun a c => a ++ c) "" chunks ∧
    (handleSendMessage s message none (some chunks)).state.chats.find?
        (fun c => c.id == cid)
      = some { c0 with messages := s.messages ++ [Message.mk message true,
          Message.mk (chunks.foldl (fun a c => a ++ c) "") false] } ∧
    (s.messages ++ [Message.mk message true,
        Message.mk (chunks.foldl (fun a c => a ++ c) "") false]).getLast?
      = some (Message.mk (chunks.foldl (fun a c => a ++ c) "") false) ∧
    (((s.messages ++ [Message.mk message true]).map Message.text).count
        (chunks.foldl (fun a c => a ++ c) "") = 0 →
      ((s.messages ++ [Message.mk message true,
          Message.mk (chunks.foldl (fun a c => a ++ c) "") false]).map Message.text).count
        (chunks.foldl (fun a c => a ++ c) "") = 1) ∧
    (handleSendMessage s message none (some chunks)).state.store
      = saveAll (handleSendMessage s message none (some chunks)).state.chats := by
  rw [handleSendMessage_fresh_chunks s cid message chunks hsel hllm]
  have hUlen : (s.messages ++ [Message.mk message true]).length
      = s.messages.length + 1 := by simp
  refine ⟨?_, ?_, ?_, ?_, rfl⟩
  · show ((((s.messages ++ [Message.mk message true]) ++ [Message.mk "" false]) ::
        (streamSteps ((s.messages ++ [Message.mk message true]) ++ [Message.mk "" false])
          (s.messages ++ [Message.mk message true]).length "" chunks).1).map
        (fun ms => (ms.getD (s.messages.length + 1) default).text))
      = List.scanl (fun a c => a ++ c) "" chunks
    rw [List.map_cons, ← hUlen]
    have hhead : (((s.messages ++ [Message.mk message true]) ++
        [Message.mk "" false]).getD
          (s.messages ++ [Message.mk message true]).length default).text = "" := by
      rw [List.getD_eq_getElem?_getD, List.getElem?_concat_length]
      rfl
    rw [hhead, streamSteps_texts chunks _ _ "" (by simp), scanl_head_tail]
  · show (updateChatMessages
        (updateChatMessages s.chats cid (s.messages ++ [Message.mk message true])) cid
        ((s.messages ++ [Message.mk message true]) ++
          [Message.mk (streamSteps
            ((s.messages ++ [Message.mk message true]) ++ [Message.mk "" false])
            (s.messages ++ [Message.mk message true]).length "" chunks).2 false])).find?
        (fun c => c.id == cid) = _
    rw [find?_updateChatMessages_twice, hc,
      streamSteps_final chunks ((s.messages ++ [Message.mk message true]) ++
        [Message.mk "" false]) (s.messages ++ [Message.mk message true]).length ""]
    simp
  · rw [show s.messages ++ [Message.mk message true,
        Message.mk (chunks.foldl (fun a c => a ++ c) "") false]
      = (s.messages ++ [Message.mk message true]) ++
        [Message.mk (chunks.foldl (fun a c => a ++ c) "") false] from by simp]
    exact List.getLast?_concat _
  · intro h
    rw [show s.messages ++ [Message.mk message true,
        Message.mk (chunks.foldl (fun a c => a ++ c) "") false]
      = (s.messages ++ [Message.mk message true]) ++
        [Message.mk (chunks.foldl (fun a c => a ++ c) "") false] from by simp]
    rw [List.map_append, List.count_append, h]
    simp [List.count_singleton_self]

/-- C1 amended witness: the concrete run from `sampleState`. -/
theorem stream_cumulative_witness :
    ((handleSendMessage sampleState "Hi" none (some ["Hel", "lo w", "orld"])).liveTrace.map
        (fun ms => (ms.getD (sampleState.messages.length + 1) default).text))
      = List.scanl (fun a c => a ++ c) "" ["Hel", "lo w", "orld"] ∧
    (handleSendMessage sampleState "Hi" none
        (some ["Hel", "lo w", "orld"])).state.chats.find? (fun c => c.id == 1)
      = some { sampleChat with messages := sampleState.messages ++ [Message.mk "Hi" true,
          Message.mk (["Hel", "lo w", "orld"].foldl (fun a c => a ++ c) "") false] } := by
  have h := stream_cumulative sampleState 1 sampleChat "Hi" ["Hel", "lo w", "orld"]
    rfl (by decide) rfl
  exact ⟨h.1, h.2.1⟩

/-! ### C10 — per-chunk frame property -/

/-- C10: each chunk update replaces only the message at the placeholder index
(the length of the history including the user's message): consecutive live
views have the same length and agree at every other index. -/
theorem stream_frame (s : AppState) (cid : Nat) (message : String) (chunks : List String)
    (hsel : s.selectedChat = some cid) (hllm : s.selectedLLM ≠ "") :
    ∀ k, k + 1 < (handleSendMessage s message none (some chunks)).liveTrace.length →
      ((handleSendMessage s message none (some chunks)).liveTrace.getD (k + 1) []).length
        = ((handleSendMessage s message none (some chunks)).liveTrace.getD k []).length ∧
      ∀ j, j ≠ s.messages.length + 1 →
        ((handleSendMessage s message none (some chunks)).liveTrace.getD (k + 1) []).getD
            j default
          = ((handleSendMessage s message none (some chunks)).liveTrace.getD k []).getD
            j default := by
  rw [handleSendMessage_fresh_chunks s cid message chunks hsel hllm]
  intro k hk
  have hUlen : (s.messages ++ [Message.mk message true]).length
      = s.messages.length + 1 := by simp
  obtain ⟨m, hm⟩ := streamSteps_chain chunks
    ((s.messages ++ [Message.mk message true]) ++ [Message.mk "" false])
    (s.messages ++ [Message.mk message true]).length "" k hk
  constructor
  · rw [hm, List.length_set]
  · intro j hj
    have hne : (s.messages ++ [Message.mk message true]).length ≠ j := by
      rw [hUlen]
      omega
    rw [hm, List.getD_eq_getElem?_getD, List.getElem?_set_ne hne,
      ← List.getD_eq_getElem?_getD]

/-- C10 witness: the first chunk update of a concrete run touches neither the
view's length nor the entry at index 0. -/
theorem stream_frame_witness :
    0 + 1 < (handleSendMessage sampleState "Hi" none (some ["a", "b"])).liveTrace.length ∧
    ((handleSendMessage sampleState "Hi" none (some ["a", "b"])).liveTrace.getD 1 []).length
      = ((handleSendMessage sampleState "Hi" none
          (some ["a", "b"])).liveTrace.getD 0 []).length ∧
    ((handleSendMessage sampleState "Hi" none
        (some ["a", "b"])).liveTrace.getD 1 []).getD 0 default
      = ((handleSendMessage sampleState "Hi" none
          (some ["a", "b"])).liveTrace.getD 0 []).getD 0 default := by
  have h := stream_frame sampleState 1 "Hi" ["a", "b"] rfl (by decide) 0 (by decide)
  exact ⟨by decide, h.1, h.2 0 (by decide)⟩

/-! ### C2 — edit, truncate, replay -/

/-- C2: editing the message at index `i` (with a thread selected and `i` in
range) replaces its text with the new text, truncates the live sequence to
length `i + 1` preserving every earlier entry, persists the truncated sequence
into the selected thread of the collection (and the store), and triggers
exactly one new send whose message is the new text and whose history is the
truncated sequence. -/
theorem editMessage_spec (s : AppState) (cid : Nat) (c0 : ChatType) (i : Nat)
    (newText : String) (response : Option (List String))
    (hsel : s.selectedChat = some cid)
    (hc : s.chats.find? (fun c => c.id == cid) = some c0)
    (hi : i < s.messages.length) :
    ((replaceTextAt s.messages i newText).take (i + 1)).length = i + 1 ∧
    (((replaceTextAt s.messages i newText).take (i + 1)).getD i default).text = newText ∧
    (∀ j, j < i → ((replaceTextAt s.messages i newText).take (i + 1)).getD j default
      = s.messages.getD j default) ∧
    (updateMessage s i newText response).preSend.messages
      = (replaceTextAt s.messages i newText).take (i + 1) ∧
    (updateMessage s i newText response).preSend.chats.find? (fun c => c.id == cid)
      = some { c0 with messages := (replaceTextAt s.messages i newText).take (i + 1) } ∧
    (updateMessage s i newText response).preSend.store
      = saveAll (updateMessage s i newText response).preSend.chats ∧
    (updateMessage s i newText response).sendCalls
      = [(newText, (replaceTextAt s.messages i newText).take (i + 1))] ∧
    (updateMessage s i newText response).result
      = handleSendMessage (updateMessage s i newText response).preSend newText
          (some ((replaceTextAt s.messages i newText).take (i + 1))) response := by
  have htext : (((replaceTextAt s.messages i newText).take (i + 1)).getD i default).text
      = newText := by
    rw [List.getD_eq_getElem?_getD, List.getElem?_take_of_lt (by omega),
      ← List.getD_eq_getElem?_getD, replaceTextAt_getD_self s.messages i newText hi]
  have hE : updateMessage s i newText response =
      ⟨setChatsPersist { s with messages := (replaceTextAt s.messages i newText).take (i + 1) }
          (updateChatMessages s.chats cid ((replaceTextAt s.messages i newText).take (i + 1))),
       handleSendMessage
         (setChatsPersist { s with messages := (replaceTextAt s.messages i newText).take (i + 1) }
           (updateChatMessages s.chats cid ((replaceTextAt s.messages i newText).take (i + 1))))
         ((((replaceTextAt s.messages i newText).take (i + 1)).getD i default).text)
         (some ((replaceTextAt s.messages i newText).take (i + 1))) response,
       [((((replaceTextAt s.messages i newText).take (i + 1)).getD i default).text,
         (replaceTextAt s.messages i newText).take (i + 1))]⟩ := by
    rw [updateMessage.eq_def, hsel]
  rw [hE]
  refine ⟨?_, htext, ?_, rfl, ?_, rfl, ?_, ?_⟩
  · rw [List.length_take, replaceTextAt_length]
    omega
  · intro j hj
    rw [List.getD_eq_getElem?_getD, List.getElem?_take_of_lt (by omega),
      ← List.getD_eq_getElem?_getD, replaceTextAt_getD_ne s.messages i j newText (by omega)]
  · show (updateChatMessages s.chats cid
        ((replaceTextAt s.messages i newText).take (i + 1))).find? (fun c => c.id == cid) = _
    rw [find?_updateChatMessages, hc]
    rfl
  · rw [htext]
  · rw [htext]

/-- C2 witness: editing index 0 of the three-message thread in `editState`. -/
theorem editMessage_spec_witness :
    ((replaceTextAt editState.messages 0 "A").take 1).length = 1 ∧
    (updateMessage editState 0 "A" (some ["ok"])).sendCalls
      = [("A", (replaceTextAt editState.messages 0 "A").take 1)] ∧
    (updateMessage editState 0 "A" (some ["ok"])).preSend.chats.find? (fun c => c.id == 1)
      = some { (⟨1, "c", "d", [⟨"a", true⟩, ⟨"b", false⟩, ⟨"q", true⟩]⟩ : ChatType) with
          messages := (replaceTextAt editState.messages 0 "A").take 1 } := by
  have h := editMessage_spec editState 1 ⟨1, "c", "d", [⟨"a", true⟩, ⟨"b", false⟩, ⟨"q", true⟩]⟩
    0 "A" (some ["ok"]) rfl rfl (by decide)
  exact ⟨h.1, h.2.2.2.2.2.2.1, h.2.2.2.2.1⟩

end AiPort
















